import Mathlib

/-!
Shallow embedding of the DocMind retrieval pipeline from
src/Docmind_app.py: paragraph chunking, dot-product similarity search,
query rewriting and the per-turn chat orchestration, together with
theorems settling the specification claims against these definitions.

Strings are modelled as lists of characters, embedding vectors as lists
of integers (an exact stand-in for the float vectors: every claim here is
about the ordering of scores, not their magnitudes), and the two external
calls (the sentence embedding model
and the text-generation service) as function parameters.  Definitions
that make external calls also return the arguments of those calls, in
order, so that claims about which calls happen are statable.
-/

namespace DocMind

/-- The whitespace characters removed by Python str.strip. -/
def isPySpace (c : Char) : Bool :=
  c == ' ' || c == '\t' || c == '\n' || c == '\r' || c == '\x0b' || c == '\x0c'

/-- Model of Python str.strip: drop whitespace from both ends. -/
def pyStrip (s : List Char) : List Char :=
  ((s.dropWhile isPySpace).reverse.dropWhile isPySpace).reverse

/-- Model of Python text.split with separator two newline characters,
scanning left to right without overlap; the empty string yields one empty
piece, as in Python. -/
def pySplit2NL : List Char → List (List Char)
  | '\n' :: '\n' :: rest => [] :: pySplit2NL rest
  | c :: rest =>
    match pySplit2NL rest with
    | [] => [[c]]
    | p :: ps => (c :: p) :: ps
  | [] => [[]]

/-- A document chunk as built by process_text: a title and the stripped
paragraph text. -/
structure Chunk where
  title : List Char
  content : List Char
deriving DecidableEq

/-- The title built for the paragraph at 0-based split position i:
the f-string filename - Section (i+1). -/
def sectionTitle (filename : List Char) (n : Nat) : List Char :=
  filename ++ " - Section ".data ++ (Nat.repr n).data

/-- Model of process_text (src/Docmind_app.py lines 16 to 25): split the
text on blank lines, keep each paragraph whose stripped length exceeds 20
characters as a chunk with stripped content, numbering sections by the
position in the raw split. -/
def process_text (text filename : List Char) : List Chunk :=
  (pySplit2NL text).enum.filterMap fun ip =>
    if (pyStrip ip.2).length > 20 then
      some { title := sectionTitle filename (ip.1 + 1), content := pyStrip ip.2 }
    else none

/-- Model of np.dot, over the integers. -/
def dot : List ℤ → List ℤ → ℤ
  | x :: xs, y :: ys => x * y + dot xs ys
  | _, _ => 0

/-- The loop of find_best_match (src/Docmind_app.py lines 46 to 53):
threads the best document and the highest score, starting from the
sentinel score -1, and records the argument of every encode call made. -/
def fbmLoop (query_embed : List ℤ) (encode : List Char → List ℤ) :
    List Chunk → Option Chunk → ℤ → Option Chunk × List (List Char)
  | [], best, _ => (best, [])
  | doc :: rest, best, highest_score =>
    let score := dot query_embed (encode doc.content)
    let r :=
      if score > highest_score then fbmLoop query_embed encode rest (some doc) score
      else fbmLoop query_embed encode rest best highest_score
    (r.1, doc.content :: r.2)

/-- Model of find_best_match (src/Docmind_app.py lines 42 to 54).  The
first component is the returned document; the second lists the arguments
of the encode calls made, in order (the query is encoded first, then each
document content). -/
def find_best_match (query : List Char) (documents : List Chunk)
    (encode : List Char → List ℤ) : Option Chunk × List (List Char) :=
  if documents.isEmpty then (none, [])
  else
    let r := fbmLoop (encode query) encode documents none (-1)
    (r.1, query :: r.2)

/-- A chat message, as the role and content entries of the message dicts. -/
structure Msg where
  role : List Char
  content : List Char
deriving DecidableEq

/-- The history string of rewrite_query: the last two turns, each formatted
as role: content with a trailing newline. -/
def historyString (chat_history : List Msg) : List Char :=
  (chat_history.drop (chat_history.length - 2)).foldl
    (fun acc msg => acc ++ msg.role ++ ": ".data ++ msg.content ++ "\n".data) []

/-- The fixed rewriting instruction of rewrite_query. -/
def rewritePrompt : List Char :=
  "\n    Rewrite the following question to be self-contained based on the history. \n    If the question is already clear, return it as is. \n    Do NOT answer the question, just rewrite it for a search engine.\n    ".data

/-- Model of rewrite_query (src/Docmind_app.py lines 57 to 85).  The first
component is the returned search query, the second lists the message
sequences passed to the external completion call (empty when no call is
made). -/
def rewrite_query (user_input : List Char) (chat_history : List Msg)
    (complete : List Msg → List Char) : List Char × List (List Msg) :=
  if chat_history.isEmpty then (user_input, [])
  else
    let history_str := historyString chat_history
    let msgs : List Msg :=
      [⟨"system".data, rewritePrompt⟩,
       ⟨"user".data,
        "History:\n".data ++ history_str ++ "\n\nQuestion: ".data ++ user_input⟩]
    (complete msgs, [msgs])

/-- The context text built for a matched chunk. -/
def contextText (c : Chunk) : List Char :=
  "Source: ".data ++ c.title ++ "\nContent: ".data ++ c.content

/-- The leading part of the answer-generation system message. -/
def sysIntro : List Char :=
  "\n            You are a helpful assistant. Use the following context to answer the user\x27s question.\n            \n            CONTEXT:\n            ".data

/-- The trailing part of the answer-generation system message. -/
def sysOutro : List Char :=
  "\n            ".data

/-- The system message of the answer-generation call, with the context of
the matched chunk embedded. -/
def systemMsg (c : Chunk) : List Char :=
  sysIntro ++ contextText c ++ sysOutro

/-- What one chat turn emits to the caller: a generated answer, or the
fixed no-information-found signal. -/
inductive TurnOutput where
  | answered (text : List Char)
  | declined
deriving DecidableEq

/-- The observable result of one chat turn: the transcript after the turn,
the emitted output, and the message sequence passed to the
answer-generation call when one is made. -/
structure TurnResult where
  messages : List Msg
  output : TurnOutput
  genCall : Option (List Msg)
deriving DecidableEq

/-- Model of one chat turn (src/Docmind_app.py lines 124 to 176): rewrite
the prompt with the current transcript, search the documents with the
rewritten query, then either build the contextual system message, call the
generator on it followed by the prior transcript and the prompt, and append
the user and assistant turns, or decline leaving the transcript unchanged. -/
def chat_turn (prompt : List Char) (messages : List Msg)
    (documents : List Chunk) (encode : List Char → List ℤ)
    (complete : List Msg → List Char) : TurnResult :=
  let search_query := (rewrite_query prompt messages complete).1
  match (find_best_match search_query documents encode).1 with
  | some best_match =>
    let full_messages :=
      ⟨"system".data, systemMsg best_match⟩ ::
        (messages ++ [⟨"user".data, prompt⟩])
    let response_text := complete full_messages
    { messages := messages ++
        [⟨"user".data, prompt⟩, ⟨"assistant".data, response_text⟩],
      output := .answered response_text,
      genCall := some full_messages }
  | none =>
    { messages := messages, output := .declined, genCall := none }

/-- The built-in demo chunk used when no files are uploaded. -/
def demoChunk : Chunk :=
  { title := "Demo: Travel".data,
    content := "Meals covered up to $50/day. Hotels up to $200/night.".data }

/-- Model of the documents initialization (src/Docmind_app.py lines 104 to
114): given the chunk lists produced for the uploaded files, concatenate
them in order; with no uploaded files, the single demo chunk is used. -/
def init_documents (uploaded : List (List Chunk)) : List Chunk :=
  if uploaded.isEmpty then [demoChunk] else uploaded.flatten

/-- The search result the specification describes: the chunk whose score
is maximal, the earliest one in insertion order on ties. -/
def firstArgmax (score : Chunk → ℤ) : List Chunk → Option Chunk
  | [] => none
  | d :: rest =>
    match firstArgmax score rest with
    | none => some d
    | some c => if score d < score c then some c else some d

/-- The segment-containment relation on character lists. -/
def containsSeg (s seg : List Char) : Prop :=
  ∃ p q, s = p ++ seg ++ q

/-- The value the loop of find_best_match computes over a list of chunks,
described recursively: the first chunk whose score strictly exceeds the
running threshold and is not strictly exceeded later; none when every
score is at or below the threshold. -/
def pick (score : Chunk → ℤ) (highest : ℤ) : List Chunk → Option Chunk
  | [] => none
  | d :: rest =>
    if highest < score d then
      match pick score (score d) rest with
      | none => some d
      | some c => some c
    else pick score highest rest

/-- Removal of trailing whitespace alone, the second phase of pyStrip. -/
def trimEnd (s : List Char) : List Char :=
  (s.reverse.dropWhile isPySpace).reverse

/-- A constant embedding: every text gets the same unit vector, so all
scores are equal and ties are decided by insertion order. -/
def constEnc : List Char → List ℤ := fun _ => [1]

/-- A constant text generator used to instantiate the orchestrator. -/
def constGen : List Msg → List Char := fun _ => "ok".data

/-- An embedding sending the query to the unit vector (1) and every
document content to the opposite unit vector (-1), so every score is the
dot product -1, at the sentinel. -/
def oppEnc : List Char → List ℤ :=
  fun s => if s = "q".data then [1] else [-1]

/-- A one-chunk document list for the sentinel counterexample. -/
def oppChunk : Chunk := ⟨"t".data, "c".data⟩

/-- Two chunks with distinct contents used to exercise a score tie. -/
def tieA : Chunk := ⟨"A".data, "aaaa".data⟩

/-- The second chunk of the tie pair. -/
def tieB : Chunk := ⟨"B".data, "bbbb".data⟩

/-- A text of three blank-line-separated paragraphs whose middle paragraph
is below the 20-character threshold. -/
def sampleText : List Char :=
  "This paragraph is long enough to keep.\n\nshort\n\nAnother paragraph long enough to keep.".data

/-- When every score is at or below the threshold, the loop keeps nothing. -/
theorem pick_eq_none (s : Chunk → ℤ) :
    ∀ (docs : List Chunk) (h : ℤ), (∀ d ∈ docs, s d ≤ h) → pick s h docs = none := by
  intro docs
  induction docs with
  | nil => intro h _; rfl
  | cons d rest ih =>
    intro h hall
    have hd : ¬ h < s d := not_lt.mpr (hall d (by simp))
    simp only [pick, if_neg hd]
    exact ih h fun x hx => hall x (by simp [hx])

/-- firstArgmax of a non-empty list is some chunk. -/
theorem firstArgmax_ne_none (s : Chunk → ℤ) (docs : List Chunk) (hd : docs ≠ [])
    (hfa : firstArgmax s docs = none) : False := by
  cases docs with
  | nil => exact hd rfl
  | cons d rest =>
    rw [firstArgmax] at hfa
    cases h : firstArgmax s rest with
    | none => rw [h] at hfa; simp at hfa
    | some c =>
      rw [h] at hfa
      by_cases hc : s d < s c <;> simp [hc] at hfa

/-- The chunk firstArgmax returns belongs to the list and its score bounds
every score in the list. -/
theorem firstArgmax_mem_le (s : Chunk → ℤ) :
    ∀ (docs : List Chunk) (c : Chunk), firstArgmax s docs = some c →
      c ∈ docs ∧ ∀ x ∈ docs, s x ≤ s c := by
  intro docs
  induction docs with
  | nil => intro c h; cases h
  | cons d rest ih =>
    intro c hc
    rw [firstArgmax] at hc
    cases h : firstArgmax s rest with
    | none =>
      rw [h] at hc
      simp only [Option.some.injEq] at hc
      subst hc
      have hrest : rest = [] := by
        by_contra hne
        exact firstArgmax_ne_none s rest hne h
      subst hrest
      exact ⟨by simp, by simp⟩
    | some c0 =>
      rw [h] at hc
      obtain ⟨hmem, hle⟩ := ih c0 h
      by_cases hdc : s d < s c0
      · simp only [if_pos hdc, Option.some.injEq] at hc
        subst hc
        exact ⟨by simp [hmem], by
          intro x hx
          rcases List.mem_cons.mp hx with hx | hx
          · subst hx; exact le_of_lt hdc
          · exact hle x hx⟩
      · simp only [if_neg hdc, Option.some.injEq] at hc
        subst hc
        exact ⟨by simp, by
          intro x hx
          rcases List.mem_cons.mp hx with hx | hx
          · subst hx; exact le_rfl
          · exact le_trans (hle x hx) (not_lt.mp hdc)⟩

/-- When some score strictly exceeds the threshold, the loop keeps exactly
the specified first maximal chunk. -/
theorem pick_eq_firstArgmax (s : Chunk → ℤ) :
    ∀ (docs : List Chunk) (h : ℤ), (∃ d ∈ docs, h < s d) →
      pick s h docs = firstArgmax s docs := by
  intro docs
  induction docs with
  | nil => intro h hex; simp at hex
  | cons d rest ih =>
    intro h hex
    by_cases hd : h < s d
    · rw [pick, if_pos hd, firstArgmax]
      cases hfa : firstArgmax s rest with
      | none =>
        have hrest : rest = [] := by
          by_contra hne
          exact firstArgmax_ne_none s rest hne hfa
        subst hrest
        rfl
      | some c0 =>
        obtain ⟨hmem, hle⟩ := firstArgmax_mem_le s rest c0 hfa
        by_cases hdc : s d < s c0
        · rw [ih (s d) ⟨c0, hmem, hdc⟩, hfa]
          simp [hdc]
        · rw [pick_eq_none s rest (s d)
            (fun x hx => le_trans (hle x hx) (not_lt.mp hdc))]
          simp [hdc]
    · rw [pick, if_neg hd, firstArgmax]
      obtain ⟨x, hx, hxs⟩ := hex
      rcases List.mem_cons.mp hx with hx | hx
      · subst hx; exact absurd hxs hd
      cases hfa : firstArgmax s rest with
      | none => exact absurd hfa (fun hfa => firstArgmax_ne_none s rest
          (by intro hn; subst hn; cases hx) hfa)
      | some c0 =>
        obtain ⟨hmem, hle⟩ := firstArgmax_mem_le s rest c0 hfa
        have hdc : s d < s c0 :=
          lt_of_le_of_lt (not_lt.mp hd) (lt_of_lt_of_le hxs (hle x hx))
        rw [ih h ⟨x, hx, hxs⟩, hfa]
        simp [hdc]

/-- The document component of the search loop, described by pick. -/
theorem fbmLoop_fst (e : List ℤ) (enc : List Char → List ℤ) :
    ∀ (docs : List Chunk) (best : Option Chunk) (h : ℤ),
      (fbmLoop e enc docs best h).1 =
        ((pick (fun d => dot e (enc d.content)) h docs).elim best some) := by
  intro docs
  induction docs with
  | nil => intro best h; rfl
  | cons d rest ih =>
    intro best h
    by_cases hd : h < dot e (enc d.content)
    · rw [fbmLoop, pick]
      simp only [gt_iff_lt, if_pos hd]
      rw [ih]
      cases hp : pick (fun d => dot e (enc d.content)) (dot e (enc d.content)) rest <;>
        simp [hp]
    · rw [fbmLoop, pick]
      simp only [gt_iff_lt, if_neg hd]
      exact ih best h

/-- The document find_best_match returns, described by pick with the
sentinel threshold -1. -/
theorem find_best_match_fst (query : List Char) (documents : List Chunk)
    (encode : List Char → List ℤ) :
    (find_best_match query documents encode).1 =
      pick (fun d => dot (encode query) (encode d.content)) (-1) documents := by
  rw [find_best_match]
  cases documents with
  | nil => rfl
  | cons d rest =>
    simp only [List.isEmpty_cons, if_neg Bool.false_ne_true]
    rw [fbmLoop_fst]
    cases pick (fun d => dot (encode query) (encode d.content)) (-1) (d :: rest) <;> rfl

/-- C1: amended.  Whenever at least one document scores strictly above the
sentinel -1, find_best_match returns the chunk whose embedding has the
maximum dot product with the query embedding, the earliest in insertion
order on a tie (the chunk firstArgmax describes); when every score is at
or below -1 the sentinel is never beaten and the function returns none
even on a non-empty document list. -/
theorem find_best_match_argmax (query : List Char) (documents : List Chunk)
    (encode : List Char → List ℤ)
    (hex : ∃ d ∈ documents, -1 < dot (encode query) (encode d.content)) :
    (find_best_match query documents encode).1 =
      firstArgmax (fun d => dot (encode query) (encode d.content)) documents := by
  rw [find_best_match_fst]
  exact pick_eq_firstArgmax _ documents (-1) hex

/-- Witness for C1: on two chunks with tied scores above the sentinel, the
theorem applies and the first chunk in insertion order is returned. -/
theorem find_best_match_argmax_witness :
    (∃ d ∈ [tieA, tieB], -1 < dot (constEnc "q".data) (constEnc d.content)) ∧
    (find_best_match "q".data [tieA, tieB] constEnc).1 =
      firstArgmax (fun d => dot (constEnc "q".data) (constEnc d.content)) [tieA, tieB] ∧
    (find_best_match "q".data [tieA, tieB] constEnc).1 = some tieA :=
  ⟨by decide,
   find_best_match_argmax "q".data [tieA, tieB] constEnc (by decide),
   by decide⟩

/-- Counterexample to C1 as stated: a non-empty document list whose single
chunk (trivially the maximal one, as firstArgmax confirms) scores exactly
-1 against the query, where find_best_match returns none instead of that
chunk. -/
theorem find_best_match_not_argmax :
    (find_best_match "q".data [oppChunk] oppEnc).1 = none ∧
    firstArgmax (fun d => dot (oppEnc "q".data) (oppEnc d.content)) [oppChunk] =
      some oppChunk ∧
    dot (oppEnc "q".data) (oppEnc oppChunk.content) = -1 ∧
    ([oppChunk] : List Chunk) ≠ [] := by
  refine ⟨by decide, by decide, by decide, by decide⟩

/-- C4: on an empty document list, find_best_match returns none for every
query and every embedding function, and the list of encode calls it makes
is empty. -/
theorem find_best_match_empty (query : List Char) (encode : List Char → List ℤ) :
    find_best_match query [] encode = (none, []) := rfl

/-- C5: with an empty chat history, rewrite_query returns the input query
unchanged for every completion function, and the list of completion calls
it makes is empty. -/
theorem rewrite_query_empty_history (user_input : List Char)
    (complete : List Msg → List Char) :
    rewrite_query user_input [] complete = (user_input, []) := rfl

/-- C6: when the search over the rewritten query yields no match, the turn
emits the fixed declined signal, leaves the transcript exactly as it was,
and makes no answer-generation call. -/
theorem chat_turn_declined (prompt : List Char) (messages : List Msg)
    (documents : List Chunk) (encode : List Char → List ℤ)
    (complete : List Msg → List Char)
    (h : (find_best_match ((rewrite_query prompt messages complete).1)
        documents encode).1 = none) :
    chat_turn prompt messages documents encode complete =
      { messages := messages, output := .declined, genCall := none } := by
  unfold chat_turn
  dsimp only
  rw [h]

/-- Witness for C6: an empty document list makes the search return none,
and the turn leaves the empty transcript unchanged. -/
theorem chat_turn_declined_witness :
    chat_turn "q".data [] [] constEnc constGen =
      { messages := [], output := .declined, genCall := none } :=
  chat_turn_declined "q".data [] [] constEnc constGen rfl

/-- C7: when the search over the rewritten query yields a match, the turn
appends exactly two entries to the transcript, the user prompt then the
generated assistant answer, keeping every earlier entry in place. -/
theorem chat_turn_found_appends (prompt : List Char) (messages : List Msg)
    (documents : List Chunk) (encode : List Char → List ℤ)
    (complete : List Msg → List Char) (c : Chunk)
    (h : (find_best_match ((rewrite_query prompt messages complete).1)
        documents encode).1 = some c) :
    (chat_turn prompt messages documents encode complete).messages =
      messages ++
        [⟨"user".data, prompt⟩,
         ⟨"assistant".data,
          complete (⟨"system".data, systemMsg c⟩ ::
            (messages ++ [⟨"user".data, prompt⟩]))⟩] := by
  unfold chat_turn
  dsimp only
  rw [h]

/-- Witness for C7: against the demo chunk every score beats the sentinel,
the search matches, and the turn appends the user and assistant entries. -/
theorem chat_turn_found_appends_witness :
    (chat_turn "hi".data [] [demoChunk] constEnc constGen).messages =
      [] ++
        [⟨"user".data, "hi".data⟩,
         ⟨"assistant".data,
          constGen (⟨"system".data, systemMsg demoChunk⟩ ::
            ([] ++ [⟨"user".data, "hi".data⟩]))⟩] :=
  chat_turn_found_appends "hi".data [] [demoChunk] constEnc constGen demoChunk
    (by decide)

/-- C8: when the search yields a match, the answer-generation call receives
a system message containing the matched chunk title and content, followed
by the full prior transcript in order, followed by the user prompt as the
final message. -/
theorem chat_turn_gen_call (prompt : List Char) (messages : List Msg)
    (documents : List Chunk) (encode : List Char → List ℤ)
    (complete : List Msg → List Char) (c : Chunk)
    (h : (find_best_match ((rewrite_query prompt messages complete).1)
        documents encode).1 = some c) :
    ∃ s, (chat_turn prompt messages documents encode complete).genCall =
        some (⟨"system".data, s⟩ :: (messages ++ [⟨"user".data, prompt⟩])) ∧
      containsSeg s c.title ∧ containsSeg s c.content := by
  refine ⟨systemMsg c, ?_, ?_, ?_⟩
  · unfold chat_turn
    dsimp only
    rw [h]
  · exact ⟨sysIntro ++ "Source: ".data,
      "\nContent: ".data ++ c.content ++ sysOutro,
      by simp [systemMsg, contextText]⟩
  · exact ⟨sysIntro ++ "Source: ".data ++ c.title ++ "\nContent: ".data,
      sysOutro, by simp [systemMsg, contextText]⟩

/-- Witness for C8: the matched demo chunk title and content appear in the
system message of the generation call, ahead of the transcript and the
prompt. -/
theorem chat_turn_gen_call_witness :
    ∃ s, (chat_turn "hi".data [] [demoChunk] constEnc constGen).genCall =
        some (⟨"system".data, s⟩ :: ([] ++ [⟨"user".data, "hi".data⟩])) ∧
      containsSeg s demoChunk.title ∧ containsSeg s demoChunk.content :=
  chat_turn_gen_call "hi".data [] [demoChunk] constEnc constGen demoChunk
    (by decide)

/-- The first character surviving dropWhile fails the predicate. -/
theorem dropWhile_head_false (p : Char → Bool) (l : List Char) (a : Char)
    (t : List Char) (h : l.dropWhile p = a :: t) : p a = false := by
  have hh := List.head?_dropWhile_not p l
  rw [h] at hh
  simpa using hh

/-- dropWhile is idempotent. -/
theorem dropWhile_idem (p : Char → Bool) (l : List Char) :
    (l.dropWhile p).dropWhile p = l.dropWhile p := by
  cases h : l.dropWhile p with
  | nil => rfl
  | cons a t =>
    exact List.dropWhile_cons_of_neg (by simp [dropWhile_head_false p l a t h])

/-- A list whose head fails the predicate is unchanged by dropWhile. -/
theorem dropWhile_eq_self_of_head (p : Char → Bool) (l : List Char)
    (h : ∀ a ∈ l.head?, p a = false) : l.dropWhile p = l := by
  cases l with
  | nil => rfl
  | cons a t => exact List.dropWhile_cons_of_neg (by simp [h a (by simp)])

/-- pyStrip is idempotent: stripping a stripped string changes nothing. -/
theorem pyStrip_idem (s : List Char) : pyStrip (pyStrip s) = pyStrip s := by
  have hstep : (pyStrip s).dropWhile isPySpace = pyStrip s := by
    apply dropWhile_eq_self_of_head
    intro a ha
    rw [pyStrip, List.head?_reverse] at ha
    rw [Option.mem_def] at ha
    have h2 : (s.dropWhile isPySpace).reverse.getLast? = some a := by
      conv_lhs =>
        rw [← List.takeWhile_append_dropWhile (p := isPySpace)
          (l := (s.dropWhile isPySpace).reverse)]
      rw [List.getLast?_append, ha]
      rfl
    rw [List.getLast?_reverse] at h2
    cases htc : s.dropWhile isPySpace with
    | nil => rw [htc] at h2; cases h2
    | cons b t2 =>
      rw [htc] at h2
      simp only [List.head?_cons, Option.some.injEq] at h2
      subst h2
      exact dropWhile_head_false isPySpace s b t2 htc
  calc pyStrip (pyStrip s)
      = (((pyStrip s).dropWhile isPySpace).reverse.dropWhile isPySpace).reverse := rfl
    _ = ((pyStrip s).reverse.dropWhile isPySpace).reverse := by rw [hstep]
    _ = ((((s.dropWhile isPySpace).reverse.dropWhile isPySpace).reverse.reverse).dropWhile
          isPySpace).reverse := rfl
    _ = (((s.dropWhile isPySpace).reverse.dropWhile isPySpace).dropWhile
          isPySpace).reverse := by rw [List.reverse_reverse]
    _ = ((s.dropWhile isPySpace).reverse.dropWhile isPySpace).reverse := by
          rw [dropWhile_idem]
    _ = pyStrip s := rfl

/-- C2: every chunk process_text returns has stripped content strictly
longer than 20 characters; a paragraph at or under the threshold is never
emitted. -/
theorem process_text_content_long (text filename : List Char) (c : Chunk)
    (hc : c ∈ process_text text filename) : (pyStrip c.content).length > 20 := by
  rw [process_text, List.mem_filterMap] at hc
  obtain ⟨ip, _, hip⟩ := hc
  by_cases h : (pyStrip ip.2).length > 20
  · rw [if_pos h, Option.some.injEq] at hip
    subst hip
    simpa [pyStrip_idem] using h
  · rw [if_neg h] at hip
    cases hip

/-- Witness for C2: the single emitted chunk of a one-paragraph text has
stripped content longer than 20 characters. -/
theorem process_text_content_long_witness :
    (Chunk.mk "f - Section 1".data "This paragraph is long enough to keep.".data
      ∈ process_text "This paragraph is long enough to keep.".data "f".data) ∧
    (pyStrip (Chunk.mk "f - Section 1".data
      "This paragraph is long enough to keep.".data).content).length > 20 :=
  ⟨by decide,
   process_text_content_long "This paragraph is long enough to keep.".data
     "f".data _ (by decide)⟩

/-- The contents of the chunks the process_text loop emits over an
enumerated paragraph list are the stripped qualifying paragraphs, for
every starting index. -/
theorem process_text_enumFrom (filename : List Char) :
    ∀ (l : List (List Char)) (n : Nat),
      ((l.enumFrom n).filterMap fun ip =>
          if (pyStrip ip.2).length > 20 then
            some (Chunk.mk (sectionTitle filename (ip.1 + 1)) (pyStrip ip.2))
          else none).map Chunk.content
        = (l.filter fun q => (pyStrip q).length > 20).map pyStrip := by
  intro l
  induction l with
  | nil => intro n; rfl
  | cons q t ih =>
    intro n
    rw [List.enumFrom_cons, List.filterMap_cons, List.filter_cons]
    by_cases h : (pyStrip q).length > 20
    · simp [h, ih]
    · simp [h, ih]

/-- C3: process_text returns the qualifying paragraphs in source order
(its chunk contents are exactly the stripped qualifying paragraphs of the
blank-line split, in order), its count is the number of qualifying
paragraphs, and the empty input yields the empty sequence. -/
theorem process_text_count_order (text filename : List Char) :
    (process_text text filename).length =
      ((pySplit2NL text).filter fun q => (pyStrip q).length > 20).length ∧
    (process_text text filename).map Chunk.content =
      ((pySplit2NL text).filter fun q => (pyStrip q).length > 20).map pyStrip ∧
    process_text [] filename = [] := by
  have hcontents : (process_text text filename).map Chunk.content =
      ((pySplit2NL text).filter fun q => (pyStrip q).length > 20).map pyStrip := by
    rw [process_text, List.enum_eq_enumFrom]
    exact process_text_enumFrom filename (pySplit2NL text) 0
  refine ⟨?_, hcontents, rfl⟩
  have hlen := congrArg List.length hcontents
  simpa using hlen

/-- C9: section numbers come from the position in the raw blank-line
split, not from the position among emitted chunks: on a three-paragraph
text whose short middle paragraph is dropped, the two emitted chunks are
titled Section 1 and Section 3. -/
theorem process_text_section_gap :
    (process_text sampleText "f".data).map Chunk.title =
      ["f - Section 1".data, "f - Section 3".data] ∧
    (pySplit2NL sampleText).length = 3 := by
  refine ⟨by decide, by decide⟩

/-- C10: with no uploaded files the document list is exactly the built-in
demo chunk titled Demo: Travel, and the document list is empty exactly
when files were uploaded and every one of them produced zero chunks. -/
theorem init_documents_demo :
    init_documents [] = [demoChunk] ∧
    demoChunk.title = "Demo: Travel".data ∧
    ∀ uploaded : List (List Chunk),
      (init_documents uploaded = [] ↔ uploaded ≠ [] ∧ ∀ l ∈ uploaded, l = []) := by
  refine ⟨rfl, rfl, ?_⟩
  intro uploaded
  cases uploaded with
  | nil => simp [init_documents, demoChunk]
  | cons a t => simp [init_documents]

end DocMind
